import Mathlib

/-!
Verification of the JSON-backed TODO store (`todo_core.py`).

Each store operation in the source is a read-entire-file / mutate / write-entire-file
cycle over one JSON array of task records.  We embed the store as a `List Task`
(the parsed file content) and each operation as a pure function from the
pre-call file content (plus its explicit inputs) to the operation's result
together with the post-call file content.  An operation that raises a Python
`ValueError` is embedded as returning an `Except.error`; the post-call file
content equals the pre-call one exactly on the paths where the source never
reaches `_write_tasks`, which the embedding mirrors line by line.

Modelling notes:
* `created_at` comes from `datetime.now().isoformat()`; the embedding takes the
  current timestamp as an explicit argument `now`.
* Python's `list(set(tags))` iterates a hash set, so the order of the returned
  list is unspecified (it depends on the per-process string hash seed).  We
  model it with `List.dedup` and prove only order-insensitive facts about it.
* Python string builtins (`str.split`, `str.strip`, the `int()` conversion
  inside `strptime`) are modelled by structurally recursive functions on the
  character list of the string (`pySplit`, `pyStrip`, `digitsVal?`) so that
  concrete runs reduce inside the kernel.  `pyStrip` strips the ASCII
  whitespace characters where Python strips all Unicode whitespace; the claims
  only relate the stored title to the stripped input title, which does not
  depend on the exact whitespace alphabet.
* Python compares strings lexicographically by code point, as does the
  `LinearOrder String` instance used for the sort keys and the `due_before`
  comparison.
-/

namespace TodoCore

/-- Python `ValueError` variants raised by `todo_core.py`, by raise site. -/
inductive Err where
  /-- "Title cannot be empty" (add_task line 142, update_task line 276). -/
  | emptyTitle : Err
  /-- "Invalid date format: ... Use YYYY-MM-DD." (line 77). -/
  | invalidDate (s : String) : Err
  /-- "Tags must be a list of strings or comma-separated string" (line 99). -/
  | invalidTags : Err
  /-- Bad `status` or `sort_by` enum value in list_tasks (lines 193, 196). -/
  | invalidArg (which : String) : Err
deriving DecidableEq, Repr

/-- One task record, the element type of the stored JSON array (schema comment,
todo_core.py lines 14-22). -/
structure Task where
  id : Nat
  title : String
  done : Bool
  tags : List String
  due : Option String
  created_at : String
deriving DecidableEq, Repr

/-- A Python value as passed for the `tags` parameter, which the source
inspects with `isinstance` (it may be `None`, a string, a list of arbitrary
values, or something else entirely). -/
inductive PyVal where
  | vnone : PyVal
  | vstr (s : String) : PyVal
  | vint (n : Int) : PyVal
  | vbool (b : Bool) : PyVal
  | vlist (xs : List PyVal) : PyVal

/-- Split a character list at every occurrence of `sep` (Python
`str.split(sep)` for a single-character separator: `''.split(',') == ['']`,
and separators are not grouped). -/
def splitChar (sep : Char) : List Char → List (List Char)
  | [] => [[]]
  | c :: cs =>
    if c = sep then [] :: splitChar sep cs
    else
      match splitChar sep cs with
      | [] => [[c]]
      | g :: gs => (c :: g) :: gs

/-- Python `s.split(sep)` for a one-character separator, on strings. -/
def pySplit (s : String) (sep : Char) : List String :=
  (splitChar sep s.data).map String.mk

/-- Python `str.strip()` with no argument: remove leading and trailing
whitespace (ASCII-whitespace model of Python's Unicode rule). -/
def pyStrip (s : String) : String :=
  String.mk (((s.data.dropWhile Char.isWhitespace).reverse.dropWhile
    Char.isWhitespace).reverse)

/-- Decimal value of a list of ASCII digits, accumulator form. -/
def digitsValAux : List Char → Nat → Option Nat
  | [], acc => some acc
  | c :: cs, acc =>
    if c.isDigit then digitsValAux cs (acc * 10 + (c.toNat - 48)) else none

/-- The numeric value of an all-ASCII-digit, non-empty string (the `int()`
conversion `strptime` applies to a matched digit group); `none` when the
string is empty or contains a non-digit. -/
def digitsVal? (s : String) : Option Nat :=
  if s.data.isEmpty then none else digitsValAux s.data 0

/-- Gregorian leap-year rule, as implemented by Python's `datetime`. -/
def isLeap (y : Nat) : Bool :=
  decide (y % 4 = 0) && (decide (¬ y % 100 = 0) || decide (y % 400 = 0))

/-- Number of days in month `m` of year `y` (the rule the Python `datetime`
constructor uses to validate the day). -/
def daysInMonth (y m : Nat) : Nat :=
  if m = 2 then (if isLeap y then 29 else 28)
  else if m = 4 ∨ m = 6 ∨ m = 9 ∨ m = 11 then 30
  else 31

/-- The shape check of `datetime.strptime(s, '%Y-%m-%d')`.  CPython's
`_strptime` compiles the format to the regex
`(?P<Y>\d\d\d\d)\-(?P<m>1[0-2]|0[1-9]|[1-9])\-(?P<d>3[01]|[12]\d|0[1-9]|[1-9])`
anchored to the whole string.  Since no group may contain a dash, a match
exists exactly when splitting on `-` yields three all-digit fields: a 4-digit
year, a month field of one or two digits with value 1..12, and a day field of
one or two digits with value 1..31 (the alternatives `1[0-2]|0[1-9]|[1-9]` and
`3[01]|[12]\d|0[1-9]|[1-9]` accept exactly the 1-2 digit decimal strings with
those values; zero padding is optional).  `digitsVal?` restricts the model to
ASCII digits. -/
def parseYMD (s : String) : Option (Nat × Nat × Nat) :=
  match pySplit s '-' with
  | [ys, ms, ds] =>
    match digitsVal? ys, digitsVal? ms, digitsVal? ds with
    | some y, some m, some d =>
      if ys.length = 4 ∧ ms.length ≤ 2 ∧ 1 ≤ m ∧ m ≤ 12
          ∧ ds.length ≤ 2 ∧ 1 ≤ d ∧ d ≤ 31
      then some (y, m, d) else none
    | _, _, _ => none
  | _ => none

/-- Whether `datetime.strptime(s, '%Y-%m-%d')` succeeds: the regex shape check
of `parseYMD` followed by the `datetime` constructor's calendar check
(`MINYEAR = 1 ≤ year` and day within the month's length). -/
def strptimeYmdOk (s : String) : Bool :=
  match parseYMD s with
  | some (y, m, d) => decide (1 ≤ y) && decide (d ≤ daysInMonth y m)
  | none => false

/-- `_validate_date` (todo_core.py lines 57-77): `None` passes through; a
present string is returned unchanged when `strptime` accepts it, else
`ValueError` ("Invalid date format"). -/
def validate_date : Option String → Except Err (Option String)
  | none => .ok none
  | some s => if strptimeYmdOk s then .ok (some s) else .error (.invalidDate s)

/-- Extract the list of strings from a Python list value when every element is
a string (the `all(isinstance(tag, str) for tag in tags)` check). -/
def strListOf? (xs : List PyVal) : Option (List String) :=
  xs.mapM fun v => match v with | .vstr s => some s | _ => none

/-- `_validate_tags` (todo_core.py lines 79-103): `None` becomes `[]`; a string
is split on `,` with each piece stripped; anything that is not then a list of
strings raises `ValueError`; empty entries are dropped and duplicates collapsed
by `list(set(tags))`, whose iteration order is unspecified (modelled with
`List.dedup`; only order-insensitive consequences are proved). -/
def validate_tags : PyVal → Except Err (List String)
  | .vnone => .ok []
  | .vstr s =>
      let pieces := (pySplit s ',').map pyStrip
      .ok ((pieces.filter (fun t => decide (¬ t = ""))).dedup)
  | .vlist xs =>
      match strListOf? xs with
      | some tags => .ok ((tags.filter (fun t => decide (¬ t = ""))).dedup)
      | none => .error .invalidTags
  | _ => .error .invalidTags

/-- `max(task['id'] for task in tasks)` over a non-empty list, as a fold
(for `Nat` ids the fold from 0 equals the maximum of a non-empty list). -/
def maxId (tasks : List Task) : Nat :=
  tasks.foldl (fun m t => max m t.id) 0

/-- `add_task` (todo_core.py lines 124-171).  Returns the raised error or the
created task, paired with the file content after the call (the source validates
title, due and tags in that order before reading the file, so every error path
leaves the file untouched; on success the new task is appended and the whole
file rewritten). -/
def add_task (tasks : List Task) (title : String) (tags : PyVal)
    (due : Option String) (now : String) : Except Err Task × List Task :=
  if title = "" ∨ pyStrip title = "" then (.error .emptyTitle, tasks)
  else
    match validate_date due with
    | .error e => (.error e, tasks)
    | .ok validated_due =>
      match validate_tags tags with
      | .error e => (.error e, tasks)
      | .ok validated_tags =>
        let new_id := if tasks.isEmpty then 1 else maxId tasks + 1
        let new_task : Task :=
          { id := new_id, title := pyStrip title, done := false,
            tags := validated_tags, due := validated_due, created_at := now }
        (.ok new_task, tasks ++ [new_task])

/-- Sort key for `sort_by="due"` (todo_core.py lines 221-225): the Python tuple
`(x['due'] is None, x['due'] or '', x['id'])` compared lexicographically
(`False < True`, strings by code point). -/
def dueKey (t : Task) : Bool ×ₗ (String ×ₗ Nat) :=
  toLex (t.due.isNone, toLex (t.due.getD "", t.id))

/-- Sort key for `sort_by="created"` (line 227): `(x['created_at'], x['id'])`. -/
def createdKey (t : Task) : String ×ₗ Nat :=
  toLex (t.created_at, t.id)

/-- Sort key for `sort_by="title"` (line 229): `(x['title'].lower(), x['id'])`.
`String.toLower` stands in for Python `str.lower()`. -/
def titleKey (t : Task) : String ×ₗ Nat :=
  toLex (t.title.toLower, t.id)

/-- `list_tasks` (todo_core.py lines 173-231): validate `status` and `sort_by`,
validate `due_before` when truthy, then filter by status, tags (OR-match) and
due_before (tasks whose `due` is `None` or the falsy `""` are dropped), then
stable-sort by the selected key (Python's `list.sort`; every key ends in `id`). -/
def list_tasks (tasks : List Task) (status : Option String)
    (tags : Option (List String)) (due_before : Option String)
    (sort_by : String) : Except Err (List Task) :=
  if ¬ (status = none ∨ status = some "open" ∨ status = some "done") then
    .error (.invalidArg "status")
  else if ¬ (sort_by = "due" ∨ sort_by = "created" ∨ sort_by = "title") then
    .error (.invalidArg "sort_by")
  else
    match (match due_before with
           | none => Except.ok none
           | some s => if s = "" then Except.ok none else validate_date (some s)) with
    | .error e => .error e
    | .ok validated_due_before =>
      let f1 :=
        match status with
        | some "open" => tasks.filter (fun (t : Task) => !t.done)
        | some "done" => tasks.filter (fun (t : Task) => t.done)
        | _ => tasks
      let f2 :=
        match tags with
        | some q => if q.isEmpty then f1
                    else f1.filter (fun t => q.any (fun g => decide (g ∈ t.tags)))
        | none => f1
      let f3 :=
        match validated_due_before with
        | some db => if db = "" then f2
                     else f2.filter (fun t =>
                       match t.due with
                       | some d => decide (¬ d = "") && decide (d ≤ db)
                       | none => false)
        | none => f2
      if sort_by = "due" then
        .ok (f3.mergeSort (fun a b => decide (dueKey a ≤ dueKey b)))
      else if sort_by = "created" then
        .ok (f3.mergeSort (fun a b => decide (createdKey a ≤ createdKey b)))
      else
        .ok (f3.mergeSort (fun a b => decide (titleKey a ≤ titleKey b)))

/-- The loop of `complete_task` (todo_core.py lines 246-252): mark the first
task with the given id done and stop; `none` when no task matches. -/
def completeFirst (task_id : Nat) : List Task → Option (List Task)
  | [] => none
  | t :: rest =>
    if t.id = task_id then some ({ t with done := true } :: rest)
    else (completeFirst task_id rest).map (t :: ·)

/-- `complete_task` (todo_core.py lines 233-252): result and post-call file
content (a write happens only when a task matched). -/
def complete_task (tasks : List Task) (task_id : Nat) : Bool × List Task :=
  match completeFirst task_id tasks with
  | some ts' => (true, ts')
  | none => (false, tasks)

/-- The title step of `update_task` (todo_core.py lines 274-277): when a title
field is supplied it must be nonblank (`not fields['title'] or not
fields['title'].strip()` raises), and the stripped value replaces the title. -/
def applyTitle (t : Task) : Option String → Except Err Task
  | none => .ok t
  | some s =>
    if s = "" ∨ pyStrip s = "" then .error .emptyTitle
    else .ok { t with title := pyStrip s }

/-- The tags step of `update_task` (todo_core.py lines 279-280). -/
def applyTags (t : Task) : Option PyVal → Except Err Task
  | none => .ok t
  | some v =>
    match validate_tags v with
    | .ok vt => .ok { t with tags := vt }
    | .error e => .error e

/-- The due step of `update_task` (todo_core.py lines 282-283); a supplied
`None` clears the due date, since `_validate_date(None)` is `None`. -/
def applyDue (t : Task) : Option (Option String) → Except Err Task
  | none => .ok t
  | some d =>
    match validate_date d with
    | .ok vd => .ok { t with due := vd }
    | .error e => .error e

/-- The matched-task body of `update_task` (todo_core.py lines 273-283): apply
the supplied fields in source order (title, tags, due), raising on the first
validation failure.  `ftitle = some s` models `fields['title'] = s`,
`fdue = some d` models `fields['due'] = d` where `d` may itself be `None`. -/
def updateTaskFields (t : Task) (ftitle : Option String) (ftags : Option PyVal)
    (fdue : Option (Option String)) : Except Err Task :=
  match applyTitle t ftitle with
  | .error e => .error e
  | .ok t1 =>
    match applyTags t1 ftags with
    | .error e => .error e
    | .ok t2 => applyDue t2 fdue

/-- The loop of `update_task` (todo_core.py lines 271-288): rewrite the first
task with the given id and stop; `ok none` when no task matches (in which case
no supplied field is ever validated). -/
def updateFirst (task_id : Nat) (ftitle : Option String) (ftags : Option PyVal)
    (fdue : Option (Option String)) : List Task → Except Err (Option (List Task))
  | [] => .ok none
  | t :: rest =>
    if t.id = task_id then
      match updateTaskFields t ftitle ftags fdue with
      | .ok t' => .ok (some (t' :: rest))
      | .error e => .error e
    else
      match updateFirst task_id ftitle ftags fdue rest with
      | .ok none => .ok none
      | .ok (some rest') => .ok (some (t :: rest'))
      | .error e => .error e

/-- `update_task` (todo_core.py lines 254-288): result and post-call file
content (the single write happens only after every supplied field of the
matched task validated; an error or a missing id leaves the file untouched). -/
def update_task (tasks : List Task) (task_id : Nat) (ftitle : Option String)
    (ftags : Option PyVal) (fdue : Option (Option String)) :
    Except Err Bool × List Task :=
  match updateFirst task_id ftitle ftags fdue tasks with
  | .ok none => (.ok false, tasks)
  | .ok (some ts') => (.ok true, ts')
  | .error e => (.error e, tasks)

/-- The loop of `delete_task` (todo_core.py lines 303-308): remove the first
task with the given id and stop; `none` when no task matches. -/
def deleteFirst (task_id : Nat) : List Task → Option (List Task)
  | [] => none
  | t :: rest =>
    if t.id = task_id then some rest
    else (deleteFirst task_id rest).map (t :: ·)

/-- `delete_task` (todo_core.py lines 290-308): result and post-call file
content (a write happens only when a task matched). -/
def delete_task (tasks : List Task) (task_id : Nat) : Bool × List Task :=
  match deleteFirst task_id tasks with
  | some ts' => (true, ts')
  | none => (false, tasks)

/-- Spec-side definition, from the words of the specification: the string
matches the fixed zero-padded `YYYY-MM-DD` format (4-digit year, 2-digit
month, 2-digit day, no time component) and denotes a valid calendar date. -/
def specZeroPadded (s : String) : Bool :=
  match pySplit s '-' with
  | [ys, ms, ds] =>
    match digitsVal? ys, digitsVal? ms, digitsVal? ds with
    | some y, some m, some d =>
      decide (ys.length = 4) && decide (ms.length = 2) && decide (ds.length = 2)
        && decide (1 ≤ y) && decide (1 ≤ m) && decide (m ≤ 12)
        && decide (1 ≤ d) && decide (d ≤ daysInMonth y m)
    | _, _, _ => false
  | _ => false

/-! ## Helper lemmas -/

theorem daysInMonth_le_31 (y m : Nat) : daysInMonth y m ≤ 31 := by
  unfold daysInMonth
  split
  · split <;> omega
  · split <;> omega

theorem validate_date_accepted_iff (s : String) :
    validate_date (some s) = .ok (some s) ↔ strptimeYmdOk s = true := by
  unfold validate_date
  split <;> simp_all

theorem strptimeYmdOk_iff (s : String) : strptimeYmdOk s = true ↔
    ∃ ys ms ds y m d, pySplit s '-' = [ys, ms, ds] ∧
      digitsVal? ys = some y ∧ digitsVal? ms = some m ∧ digitsVal? ds = some d ∧
      ys.length = 4 ∧ ms.length ≤ 2 ∧ ds.length ≤ 2 ∧
      1 ≤ y ∧ 1 ≤ m ∧ m ≤ 12 ∧ 1 ≤ d ∧ d ≤ daysInMonth y m := by
  unfold strptimeYmdOk parseYMD
  rcases hsplit : pySplit s '-' with _ | ⟨ys, _ | ⟨ms, _ | ⟨ds, _ | ⟨x, xs⟩⟩⟩⟩
  · simp
  · simp
  · simp
  · rcases hy : digitsVal? ys with _ | y
    · simp [hy]
    · rcases hm : digitsVal? ms with _ | m
      · simp [hy, hm]
      · rcases hd : digitsVal? ds with _ | d
        · simp [hy, hm, hd]
        · simp only [hy, hm, hd]
          constructor
          · intro hacc
            split at hacc
            · rename_i y' m' d' hcond
              split at hcond
              · rename_i hcondT
                injection hcond with hcond
                obtain ⟨e1, e2, e3⟩ : y = y' ∧ m = m' ∧ d = d' := by
                  refine ⟨congrArg Prod.fst hcond, ?_, ?_⟩
                  · exact congrArg Prod.fst (congrArg Prod.snd hcond)
                  · exact congrArg Prod.snd (congrArg Prod.snd hcond)
                subst e1; subst e2; subst e3
                simp only [Bool.and_eq_true, decide_eq_true_eq] at hacc
                exact ⟨ys, ms, ds, y, m, d, rfl, hy, hm, hd,
                  hcondT.1, hcondT.2.1, hcondT.2.2.2.2.1, hacc.1,
                  hcondT.2.2.1, hcondT.2.2.2.1, hcondT.2.2.2.2.2.1, hacc.2⟩
              · cases hcond
            · simp at hacc
          · rintro ⟨ys', ms', ds', y', m', d', heq, hy', hm', hd', h4, hm2, hd2,
              hy1, hm1, hm12, hd1, hdm⟩
            injection heq with e1 rest; injection rest with e2 rest2
            injection rest2 with e3
            subst e1; subst e2; subst e3
            rw [hy] at hy'; injection hy' with ey; subst ey
            rw [hm] at hm'; injection hm' with em; subst em
            rw [hd] at hd'; injection hd' with ed; subst ed
            have hd31 : d ≤ 31 := le_trans hdm (daysInMonth_le_31 y m)
            rw [if_pos ⟨h4, hm2, hm1, hm12, hd2, hd1, hd31⟩]
            simp [hy1, hdm]
  · simp

/-! ## Claim C4 -/

/-- C4, counterexample: the claim says `validate_date` returns a present string
unchanged exactly when it matches the fixed zero-padded `YYYY-MM-DD` format,
but `strptime('%Y-%m-%d')` also accepts the non-zero-padded month field of
`"2025-1-01"`, which the code therefore accepts although it does not match the
zero-padded format. -/
theorem validate_date_accepts_unpadded :
    validate_date (some "2025-1-01") = .ok (some "2025-1-01") ∧
    specZeroPadded "2025-1-01" = false :=
  ⟨rfl, by decide⟩

/-- C4 (amended): `validate_date` maps absent to absent; a present string is
returned unchanged on success and rejected with `InvalidFormat` otherwise;
every zero-padded valid calendar date is accepted; and a present string is
accepted exactly when splitting it on `-` yields three all-ASCII-digit fields:
a 4-digit year ≥ 1, a month of one or two digits with value 1..12 and a day of
one or two digits whose value is a valid day of that month and year — i.e.
zero padding of month and day is optional, so the accepted set is strictly
wider than the fixed zero-padded `YYYY-MM-DD` format; calendrically impossible
dates (month 13, day 30 of February) are still rejected. -/
theorem validate_date_spec :
    validate_date none = .ok none ∧
    (∀ s r, validate_date (some s) = .ok r → r = some s) ∧
    (∀ s, validate_date (some s) = .ok (some s) ∨
          validate_date (some s) = .error (.invalidDate s)) ∧
    (∀ s, specZeroPadded s = true → validate_date (some s) = .ok (some s)) ∧
    (∀ s, validate_date (some s) = .ok (some s) ↔
      ∃ ys ms ds y m d, pySplit s '-' = [ys, ms, ds] ∧
        digitsVal? ys = some y ∧ digitsVal? ms = some m ∧ digitsVal? ds = some d ∧
        ys.length = 4 ∧ ms.length ≤ 2 ∧ ds.length ≤ 2 ∧
        1 ≤ y ∧ 1 ≤ m ∧ m ≤ 12 ∧ 1 ≤ d ∧ d ≤ daysInMonth y m) := by
  refine ⟨rfl, ?_, ?_, ?_,
    fun s => (validate_date_accepted_iff s).trans (strptimeYmdOk_iff s)⟩
  · intro s r h
    simp only [validate_date] at h
    split at h
    · simpa using h.symm
    · simp at h
  · intro s
    simp only [validate_date]
    by_cases hb : strptimeYmdOk s = true
    · left; rw [if_pos hb]
    · right; rw [if_neg hb]
  · intro s hzp
    rw [validate_date_accepted_iff, strptimeYmdOk_iff]
    unfold specZeroPadded at hzp
    rcases hsplit : pySplit s '-' with _ | ⟨ys, _ | ⟨ms, _ | ⟨ds, _ | ⟨x, xs⟩⟩⟩⟩
    · simp [hsplit] at hzp
    · simp [hsplit] at hzp
    · simp [hsplit] at hzp
    · simp only [hsplit] at hzp
      rcases hy : digitsVal? ys with _ | y
      · simp [hy] at hzp
      · rcases hm : digitsVal? ms with _ | m
        · simp [hy, hm] at hzp
        · rcases hd : digitsVal? ds with _ | d
          · simp [hy, hm, hd] at hzp
          · simp only [hy, hm, hd, Bool.and_eq_true, decide_eq_true_eq] at hzp
            obtain ⟨⟨⟨⟨⟨⟨⟨h4, hmlen⟩, hdlen⟩, hy1⟩, hm1⟩, hm12⟩, hd1⟩, hdm⟩ := hzp
            exact ⟨ys, ms, ds, y, m, d, rfl, hy, hm, hd, h4, by omega, by omega,
              hy1, hm1, hm12, hd1, hdm⟩
    · simp [hsplit] at hzp

/-- C4, witness: the zero-padded valid date `"2025-09-05"` is accepted
unchanged, by the amended theorem. -/
theorem validate_date_spec_witness :
    specZeroPadded "2025-09-05" = true ∧
    validate_date (some "2025-09-05") = .ok (some "2025-09-05") :=
  ⟨by decide, validate_date_spec.2.2.2.1 "2025-09-05" (by decide)⟩

/-! ## Claim C8 -/

theorem validate_tags_ok_shape (v : PyVal) (r : List String)
    (h : validate_tags v = .ok r) :
    r = [] ∨ ∃ l : List String, r = (l.filter (fun t => decide (¬ t = ""))).dedup := by
  cases v with
  | vnone =>
    left
    have e : validate_tags .vnone = .ok [] := rfl
    rw [e] at h
    injection h with h
    exact h.symm
  | vstr s =>
    right
    refine ⟨(pySplit s ',').map pyStrip, ?_⟩
    have e : validate_tags (.vstr s) =
        .ok ((((pySplit s ',').map pyStrip).filter (fun t => decide (¬ t = ""))).dedup) := rfl
    rw [e] at h
    injection h with h
    exact h.symm
  | vint n => cases h
  | vbool b => cases h
  | vlist xs =>
    rcases hts : strListOf? xs with _ | ts
    · simp only [validate_tags, hts] at h
      cases h
    · right
      refine ⟨ts, ?_⟩
      simp only [validate_tags, hts] at h
      injection h with h
      exact h.symm

/-- C8: every collection `validate_tags` accepts contains no empty strings and
no duplicates; a string input is split on `,` with each piece stripped before
cleaning; a list-of-strings input is cleaned directly; and a value that is
neither a string nor a list of strings (an int, a bool, or a list with a
non-string element) fails with `InvalidType`.  (`None`, the absent default of
the `tags` parameter, yields the empty collection.) -/
theorem validate_tags_spec (v : PyVal) :
    (∀ r, validate_tags v = .ok r → "" ∉ r ∧ r.Nodup) ∧
    (∀ s r, v = .vstr s → validate_tags v = .ok r →
      ∀ x, x ∈ r ↔ (¬ x = "" ∧ ∃ piece ∈ pySplit s ',', pyStrip piece = x)) ∧
    (∀ xs ts r, v = .vlist xs → strListOf? xs = some ts → validate_tags v = .ok r →
      ∀ x, x ∈ r ↔ (¬ x = "" ∧ x ∈ ts)) ∧
    (∀ xs, v = .vlist xs → strListOf? xs = none →
      validate_tags v = .error .invalidTags) ∧
    (∀ n, v = .vint n → validate_tags v = .error .invalidTags) ∧
    (∀ b, v = .vbool b → validate_tags v = .error .invalidTags) := by
  refine ⟨?_, ?_, ?_, ?_, ?_, ?_⟩
  · intro r h
    rcases validate_tags_ok_shape v r h with rfl | ⟨l, rfl⟩
    · simp
    · refine ⟨?_, List.nodup_dedup _⟩
      intro hmem
      rw [List.mem_dedup, List.mem_filter] at hmem
      simpa using hmem.2
  · rintro s r rfl h
    have e : validate_tags (.vstr s) =
        .ok ((((pySplit s ',').map pyStrip).filter (fun t => decide (¬ t = ""))).dedup) := rfl
    rw [e] at h
    injection h with h
    subst h
    intro x
    rw [List.mem_dedup, List.mem_filter]
    simp only [List.mem_map, decide_eq_true_eq]
    tauto
  · rintro xs ts r rfl hts h
    simp only [validate_tags, hts] at h
    injection h with h
    subst h
    intro x
    rw [List.mem_dedup, List.mem_filter]
    simp only [decide_eq_true_eq]
    tauto
  · rintro xs rfl hnone
    simp only [validate_tags, hnone]
  · rintro n rfl
    rfl
  · rintro b rfl
    rfl

/-- C8, witness: `validate_tags "a,,a,b"` evaluates to the clean collection
containing exactly a and b, with no empty entry and no duplicate, by the claim
theorem applied at that input. -/
theorem validate_tags_spec_witness :
    "" ∉ ["a", "b"] ∧ List.Nodup ["a", "b"] ∧
    (∀ x, x ∈ ["a", "b"] ↔
      (¬ x = "" ∧ ∃ piece ∈ pySplit "a,,a,b" ',', pyStrip piece = x)) := by
  have h := validate_tags_spec (.vstr "a,,a,b")
  have h1 := h.1 ["a", "b"] rfl
  have h2 := h.2.1 "a,,a,b" ["a", "b"] rfl rfl
  exact ⟨h1.1, h1.2, h2⟩

/-! ## Claim C3 -/

theorem completeFirst_not_found (task_id : Nat) (ts : List Task)
    (h : ∀ t ∈ ts, t.id ≠ task_id) : completeFirst task_id ts = none := by
  induction ts with
  | nil => rfl
  | cons t rest ih =>
    simp only [completeFirst]
    rw [if_neg (h t (List.mem_cons_self t rest))]
    rw [ih (fun u hu => h u (List.mem_cons_of_mem t hu))]
    rfl

theorem deleteFirst_not_found (task_id : Nat) (ts : List Task)
    (h : ∀ t ∈ ts, t.id ≠ task_id) : deleteFirst task_id ts = none := by
  induction ts with
  | nil => rfl
  | cons t rest ih =>
    simp only [deleteFirst]
    rw [if_neg (h t (List.mem_cons_self t rest))]
    rw [ih (fun u hu => h u (List.mem_cons_of_mem t hu))]
    rfl

theorem updateFirst_not_found (task_id : Nat) (ftitle : Option String)
    (ftags : Option PyVal) (fdue : Option (Option String)) (ts : List Task)
    (h : ∀ t ∈ ts, t.id ≠ task_id) :
    updateFirst task_id ftitle ftags fdue ts = .ok none := by
  induction ts with
  | nil => rfl
  | cons t rest ih =>
    simp only [updateFirst]
    rw [if_neg (h t (List.mem_cons_self t rest))]
    rw [ih (fun u hu => h u (List.mem_cons_of_mem t hu))]

/-- C3: on an id that no task in the store has, `complete_task`,
`update_task` and `delete_task` each return false and leave the persisted
store exactly as it was (no write occurs); absence is a normal negative
result, never a raised error — `update_task` in particular returns false
whatever fields were supplied, since it validates nothing when no task
matches. -/
theorem absent_id_returns_false (ts : List Task) (task_id : Nat)
    (ftitle : Option String) (ftags : Option PyVal) (fdue : Option (Option String))
    (h : ∀ t ∈ ts, t.id ≠ task_id) :
    complete_task ts task_id = (false, ts) ∧
    update_task ts task_id ftitle ftags fdue = (.ok false, ts) ∧
    delete_task ts task_id = (false, ts) := by
  refine ⟨?_, ?_, ?_⟩
  · unfold complete_task
    rw [completeFirst_not_found task_id ts h]
  · unfold update_task
    rw [updateFirst_not_found task_id ftitle ftags fdue ts h]
  · unfold delete_task
    rw [deleteFirst_not_found task_id ts h]

/-- C3, witness: on a store whose only task has id 1, id 999 is absent and all
three operations return false with the store unchanged (update_task is even
given an invalid empty title and still just returns false). -/
theorem absent_id_returns_false_witness :
    complete_task [⟨1, "A", false, [], none, "T0"⟩] 999 =
      (false, [⟨1, "A", false, [], none, "T0"⟩]) ∧
    update_task [⟨1, "A", false, [], none, "T0"⟩] 999 (some "") none none =
      (.ok false, [⟨1, "A", false, [], none, "T0"⟩]) ∧
    delete_task [⟨1, "A", false, [], none, "T0"⟩] 999 =
      (false, [⟨1, "A", false, [], none, "T0"⟩]) :=
  absent_id_returns_false [⟨1, "A", false, [], none, "T0"⟩] 999
    (some "") none none (by decide)

/-! ## Claim C1 -/

theorem foldl_max_ge_acc (ts : List Task) (a : Nat) :
    a ≤ ts.foldl (fun m u => max m u.id) a := by
  induction ts generalizing a with
  | nil => exact le_refl a
  | cons u rest ih =>
    exact le_trans (le_max_left a u.id) (ih (max a u.id))

theorem foldl_max_le_mem (ts : List Task) (a : Nat) (t : Task) (ht : t ∈ ts) :
    t.id ≤ ts.foldl (fun m u => max m u.id) a := by
  induction ts generalizing a with
  | nil => cases ht
  | cons u rest ih =>
    rcases List.mem_cons.mp ht with rfl | hmem
    · exact le_trans (le_max_right a t.id) (foldl_max_ge_acc rest (max a t.id))
    · exact ih (max a u.id) hmem

theorem foldl_max_attained (ts : List Task) (a : Nat) :
    ts.foldl (fun m u => max m u.id) a = a ∨
    ∃ u ∈ ts, ts.foldl (fun m u => max m u.id) a = u.id := by
  induction ts generalizing a with
  | nil => exact Or.inl rfl
  | cons u rest ih =>
    rcases ih (max a u.id) with h | ⟨w, hw, he⟩
    · rcases max_choice a u.id with hm | hm
      · left
        simpa [hm] using h
      · right
        exact ⟨u, List.mem_cons_self u rest, by simpa [hm] using h⟩
    · right
      exact ⟨w, List.mem_cons_of_mem u hw, he⟩

/-- C1: with a nonblank title and valid tags/due inputs, `add_task` appends
exactly one new task to the store — its id is `max(existing ids) + 1`, or 1
when the store is empty; its title is the stripped input title; its done flag
is false — leaves every pre-existing task unchanged (the post-call store is
the old store with the new task appended), and returns that task. -/
theorem add_task_appends (ts : List Task) (title : String) (tags : PyVal)
    (due : Option String) (now : String) (vd : Option String) (vt : List String)
    (htitle : ¬ pyStrip title = "")
    (hdue : validate_date due = .ok vd) (htags : validate_tags tags = .ok vt) :
    ∃ t : Task, add_task ts title tags due now = (.ok t, ts ++ [t]) ∧
      t.title = pyStrip title ∧ t.done = false ∧
      (ts = [] → t.id = 1) ∧
      (∀ u ∈ ts, u.id < t.id) ∧
      (¬ ts = [] → ∃ u ∈ ts, t.id = u.id + 1) := by
  have hguard : ¬ (title = "" ∨ pyStrip title = "") := by
    rintro (rfl | h)
    · exact htitle rfl
    · exact htitle h
  by_cases hts : ts = []
  · subst hts
    refine ⟨⟨1, pyStrip title, false, vt, vd, now⟩, ?_, rfl, rfl, fun _ => rfl,
      ?_, ?_⟩
    · simp only [add_task, hdue, htags]
      rw [if_neg hguard]
      rfl
    · intro u hu
      cases hu
    · intro hne
      exact absurd rfl hne
  · have hemp : ts.isEmpty = false := by
      cases ts with
      | nil => exact absurd rfl hts
      | cons a l => rfl
    refine ⟨⟨maxId ts + 1, pyStrip title, false, vt, vd, now⟩, ?_, rfl, rfl,
      ?_, ?_, ?_⟩
    · simp only [add_task, hdue, htags, hemp]
      rw [if_neg hguard]
      rfl
    · intro h
      exact absurd h hts
    · intro u hu
      exact Nat.lt_succ_of_le (foldl_max_le_mem ts 0 u hu)
    · intro _
      rcases foldl_max_attained ts 0 with h0 | ⟨u, hu, he⟩
      · obtain ⟨u, hu⟩ : ∃ u, u ∈ ts := by
          cases ts with
          | nil => exact absurd rfl hts
          | cons a l => exact ⟨a, List.mem_cons_self a l⟩
        have h1 : u.id ≤ ts.foldl (fun m u => max m u.id) 0 :=
          foldl_max_le_mem ts 0 u hu
        refine ⟨u, hu, ?_⟩
        show maxId ts + 1 = u.id + 1
        unfold maxId
        omega
      · refine ⟨u, hu, ?_⟩
        show maxId ts + 1 = u.id + 1
        unfold maxId
        rw [he]

/-- C1, witness: adding title " Foo " with no tags and due 2025-09-05 to a
store holding one task of id 2 yields the appended task with stripped title,
done false and id 3, by the claim theorem at those inputs. -/
theorem add_task_appends_witness :
    ∃ t : Task, add_task [⟨2, "A", false, [], none, "T0"⟩] " Foo " .vnone
        (some "2025-09-05") "T1" =
        (.ok t, [⟨2, "A", false, [], none, "T0"⟩] ++ [t]) ∧
      t.title = pyStrip " Foo " ∧ t.done = false ∧
      (([⟨2, "A", false, [], none, "T0"⟩] : List Task) = [] → t.id = 1) ∧
      (∀ u ∈ ([⟨2, "A", false, [], none, "T0"⟩] : List Task), u.id < t.id) ∧
      (¬ ([⟨2, "A", false, [], none, "T0"⟩] : List Task) = [] →
        ∃ u ∈ ([⟨2, "A", false, [], none, "T0"⟩] : List Task), t.id = u.id + 1) :=
  add_task_appends [⟨2, "A", false, [], none, "T0"⟩] " Foo " .vnone
    (some "2025-09-05") "T1" (some "2025-09-05") [] (by decide) rfl rfl

/-! ## Claim C2 -/

theorem updateTaskFields_error (t : Task) (ftitle : Option String)
    (ftags : Option PyVal) (fdue : Option (Option String))
    (hbad : (∃ s, ftitle = some s ∧ pyStrip s = "") ∨
            (∃ v, ftags = some v ∧ ∃ e, validate_tags v = .error e) ∨
            (∃ d, fdue = some d ∧ ∃ e, validate_date d = .error e)) :
    ∃ e, updateTaskFields t ftitle ftags fdue = .error e := by
  rcases h1 : applyTitle t ftitle with e1 | t1
  · exact ⟨e1, by simp only [updateTaskFields, h1]⟩
  · rcases h2 : applyTags t1 ftags with e2 | t2
    · exact ⟨e2, by simp only [updateTaskFields, h1, h2]⟩
    · rcases hbad with ⟨s, rfl, hs⟩ | ⟨v, rfl, e, he⟩ | ⟨d, rfl, e, he⟩
      · rw [applyTitle, if_pos (Or.inr hs)] at h1
        cases h1
      · rw [applyTags, he] at h2
        cases h2
      · refine ⟨e, ?_⟩
        simp only [updateTaskFields, h1, h2, applyDue, he]

theorem updateFirst_found_error (task_id : Nat) (ftitle : Option String)
    (ftags : Option PyVal) (fdue : Option (Option String)) (ts : List Task)
    (hfound : ∃ t ∈ ts, t.id = task_id)
    (herr : ∀ t : Task, ∃ e, updateTaskFields t ftitle ftags fdue = .error e) :
    ∃ e, updateFirst task_id ftitle ftags fdue ts = .error e := by
  induction ts with
  | nil => simp at hfound
  | cons t rest ih =>
    by_cases hid : t.id = task_id
    · obtain ⟨e, he⟩ := herr t
      refine ⟨e, ?_⟩
      simp only [updateFirst, if_pos hid, he]
    · have hrest : ∃ u ∈ rest, u.id = task_id := by
        rcases hfound with ⟨u, hu, hue⟩
        rcases List.mem_cons.mp hu with rfl | hmem
        · exact absurd hue hid
        · exact ⟨u, hmem, hue⟩
      obtain ⟨e, he⟩ := ih hrest
      refine ⟨e, ?_⟩
      simp only [updateFirst, if_neg hid, he]

/-- C2, counterexample: on a store whose only task has id 2, the call
`update_task(path, 1, title="")` supplies a title that fails validation (it is
empty), yet the operation does not raise: because no task has id 1, the loop
never runs the validators and the call returns false.  The claim as stated —
every add_task/update_task call with a failing supplied field raises — is
therefore false at this input (the store is still left unchanged). -/
theorem update_task_invalid_field_absent_id_no_raise :
    pyStrip "" = "" ∧
    update_task [⟨2, "A", false, [], none, "T0"⟩] 1 (some "") none none =
      (.ok false, [⟨2, "A", false, [], none, "T0"⟩]) :=
  ⟨rfl, rfl⟩

/-- C2 (amended): a call whose supplied field fails validation never writes:
`add_task` always raises and leaves the persisted store exactly as it was;
`update_task` raises and leaves the store unchanged when some task has the
given id, but when the id is absent it returns false without running any
validation — and also leaves the store unchanged. -/
theorem validation_failure_no_write (ts : List Task) (title : String)
    (tags : PyVal) (due : Option String) (now : String) (task_id : Nat)
    (ftitle : Option String) (ftags : Option PyVal) (fdue : Option (Option String))
    (hadd : pyStrip title = "" ∨ (∃ e, validate_date due = .error e) ∨
            (∃ e, validate_tags tags = .error e))
    (hupd : (∃ s, ftitle = some s ∧ pyStrip s = "") ∨
            (∃ v, ftags = some v ∧ ∃ e, validate_tags v = .error e) ∨
            (∃ d, fdue = some d ∧ ∃ e, validate_date d = .error e)) :
    (∃ e, add_task ts title tags due now = (.error e, ts)) ∧
    ((∃ t ∈ ts, t.id = task_id) →
      ∃ e, update_task ts task_id ftitle ftags fdue = (.error e, ts)) ∧
    ((∀ t ∈ ts, t.id ≠ task_id) →
      update_task ts task_id ftitle ftags fdue = (.ok false, ts)) := by
  refine ⟨?_, ?_, ?_⟩
  · by_cases hg : title = "" ∨ pyStrip title = ""
    · exact ⟨.emptyTitle, by simp only [add_task, if_pos hg]⟩
    · rcases hd : validate_date due with ed | vd
      · exact ⟨ed, by simp only [add_task, if_neg hg, hd]⟩
      · rcases ht : validate_tags tags with et | vt
        · exact ⟨et, by simp only [add_task, if_neg hg, hd, ht]⟩
        · exfalso
          rcases hadd with h | ⟨e, he⟩ | ⟨e, he⟩
          · exact hg (Or.inr h)
          · rw [hd] at he
            cases he
          · rw [ht] at he
            cases he
  · intro hfound
    obtain ⟨e, he⟩ := updateFirst_found_error task_id ftitle ftags fdue ts hfound
      (fun t => updateTaskFields_error t ftitle ftags fdue hupd)
    exact ⟨e, by simp only [update_task, he]⟩
  · intro habsent
    simp only [update_task, updateFirst_not_found task_id ftitle ftags fdue ts habsent]

/-- C2, witness: a blank title, an int tags value and a malformed due date all
fail validation; `add_task` raises and leaves the store unchanged, and
`update_task` on the present id 1 raises and leaves the store unchanged, by
the amended theorem. -/
theorem validation_failure_no_write_witness :
    (∃ e, add_task [⟨1, "A", false, [], none, "T0"⟩] " " (.vint 0) (some "x") "T1" =
      (.error e, [⟨1, "A", false, [], none, "T0"⟩])) ∧
    (∃ e, update_task [⟨1, "A", false, [], none, "T0"⟩] 1 (some " ") none none =
      (.error e, [⟨1, "A", false, [], none, "T0"⟩])) := by
  have h := validation_failure_no_write [⟨1, "A", false, [], none, "T0"⟩] " "
    (.vint 0) (some "x") "T1" 1 (some " ") none none
    (Or.inl (by decide))
    (Or.inl ⟨" ", rfl, by decide⟩)
  exact ⟨h.1, h.2.1 ⟨⟨1, "A", false, [], none, "T0"⟩, List.mem_cons_self _ _, rfl⟩⟩

/-! ## Claim C10 -/

theorem completeFirst_append (task_id : Nat) (pre : List Task) (t : Task)
    (post : List Task) (hpre : ∀ u ∈ pre, u.id ≠ task_id) (ht : t.id = task_id) :
    completeFirst task_id (pre ++ t :: post) =
      some (pre ++ { t with done := true } :: post) := by
  induction pre with
  | nil => simp only [List.nil_append, completeFirst, if_pos ht]
  | cons p ps ih =>
    simp only [List.cons_append, completeFirst,
      if_neg (hpre p (List.mem_cons_self p ps)), List.append_eq]
    rw [ih (fun u hu => hpre u (List.mem_cons_of_mem p hu))]
    rfl

theorem exists_first_match (task_id : Nat) (ts : List Task)
    (h : ∃ t ∈ ts, t.id = task_id) :
    ∃ pre t post, ts = pre ++ t :: post ∧ (∀ u ∈ pre, u.id ≠ task_id) ∧
      t.id = task_id := by
  induction ts with
  | nil => simp at h
  | cons t rest ih =>
    by_cases hid : t.id = task_id
    · exact ⟨[], t, rest, rfl, by simp, hid⟩
    · have hrest : ∃ u ∈ rest, u.id = task_id := by
        rcases h with ⟨u, hu, hue⟩
        rcases List.mem_cons.mp hu with rfl | hmem
        · exact absurd hue hid
        · exact ⟨u, hmem, hue⟩
      obtain ⟨pre, u, post, heq, hpre, hu⟩ := ih hrest
      refine ⟨t :: pre, u, post, by rw [heq, List.cons_append], ?_, hu⟩
      intro w hw
      rcases List.mem_cons.mp hw with rfl | hmem
      · exact hid
      · exact hpre w hmem

/-- C10: on a store containing a task with the given id, `complete_task`
returns true and changes exactly the first such task, setting its done flag to
true and touching nothing else; running `complete_task` again with the same id
on the result again returns true and leaves the store state identical — in
particular the store is a fixed point even when the task was already done
before the first call. -/
theorem complete_task_idempotent (ts : List Task) (task_id : Nat)
    (h : ∃ t ∈ ts, t.id = task_id) :
    ∃ pre t post, ts = pre ++ t :: post ∧ (∀ u ∈ pre, u.id ≠ task_id) ∧
      t.id = task_id ∧
      complete_task ts task_id = (true, pre ++ { t with done := true } :: post) ∧
      complete_task (pre ++ { t with done := true } :: post) task_id =
        (true, pre ++ { t with done := true } :: post) := by
  obtain ⟨pre, t, post, rfl, hpre, ht⟩ := exists_first_match task_id ts h
  refine ⟨pre, t, post, rfl, hpre, ht, ?_, ?_⟩
  · unfold complete_task
    rw [completeFirst_append task_id pre t post hpre ht]
  · unfold complete_task
    rw [completeFirst_append task_id pre { t with done := true } post hpre ht]

/-- C10, witness: on a store whose only task (id 1) is already done,
`complete_task` returns true both times and the store value never changes, by
the claim theorem at that input. -/
theorem complete_task_idempotent_witness :
    ∃ pre t post, ([⟨1, "A", true, [], none, "T0"⟩] : List Task) =
        pre ++ t :: post ∧ (∀ u ∈ pre, u.id ≠ 1) ∧ t.id = 1 ∧
      complete_task [⟨1, "A", true, [], none, "T0"⟩] 1 =
        (true, pre ++ { t with done := true } :: post) ∧
      complete_task (pre ++ { t with done := true } :: post) 1 =
        (true, pre ++ { t with done := true } :: post) :=
  complete_task_idempotent [⟨1, "A", true, [], none, "T0"⟩] 1
    ⟨⟨1, "A", true, [], none, "T0"⟩, List.mem_cons_self _ _, rfl⟩

/-! ## Claim C9 -/

theorem completeFirst_map_id (task_id : Nat) (ts ts' : List Task)
    (h : completeFirst task_id ts = some ts') :
    ts'.map Task.id = ts.map Task.id := by
  induction ts generalizing ts' with
  | nil => cases h
  | cons t rest ih =>
    simp only [completeFirst] at h
    by_cases hid : t.id = task_id
    · rw [if_pos hid] at h
      injection h with h
      subst h
      rfl
    · rw [if_neg hid] at h
      rcases hrec : completeFirst task_id rest with _ | rest'
      · simp [hrec] at h
      · simp only [hrec, Option.map_some'] at h
        injection h with h
        subst h
        simp only [List.map_cons, ih rest' hrec]

theorem applyTitle_id (t : Task) (ftitle : Option String) (t' : Task)
    (h : applyTitle t ftitle = .ok t') : t'.id = t.id := by
  cases ftitle with
  | none =>
    injection h with h
    rw [← h]
  | some s =>
    simp only [applyTitle] at h
    split at h
    · cases h
    · injection h with h
      rw [← h]

theorem applyTags_id (t : Task) (ftags : Option PyVal) (t' : Task)
    (h : applyTags t ftags = .ok t') : t'.id = t.id := by
  cases ftags with
  | none =>
    injection h with h
    rw [← h]
  | some v =>
    simp only [applyTags] at h
    rcases hv : validate_tags v with e | vt
    · simp only [hv] at h
      cases h
    · simp only [hv] at h
      injection h with h
      rw [← h]

theorem applyDue_id (t : Task) (fdue : Option (Option String)) (t' : Task)
    (h : applyDue t fdue = .ok t') : t'.id = t.id := by
  cases fdue with
  | none =>
    injection h with h
    rw [← h]
  | some d =>
    simp only [applyDue] at h
    rcases hv : validate_date d with e | vd
    · simp only [hv] at h
      cases h
    · simp only [hv] at h
      injection h with h
      rw [← h]

theorem updateTaskFields_id (t : Task) (ftitle : Option String)
    (ftags : Option PyVal) (fdue : Option (Option String)) (t' : Task)
    (h : updateTaskFields t ftitle ftags fdue = .ok t') : t'.id = t.id := by
  unfold updateTaskFields at h
  rcases h1 : applyTitle t ftitle with e1 | t1
  · simp only [h1] at h
    cases h
  · simp only [h1] at h
    rcases h2 : applyTags t1 ftags with e2 | t2
    · simp only [h2] at h
      cases h
    · simp only [h2] at h
      rw [applyDue_id t2 fdue t' h, applyTags_id t1 ftags t2 h2,
        applyTitle_id t ftitle t1 h1]

theorem updateFirst_map_id (task_id : Nat) (ftitle : Option String)
    (ftags : Option PyVal) (fdue : Option (Option String)) (ts ts' : List Task)
    (h : updateFirst task_id ftitle ftags fdue ts = .ok (some ts')) :
    ts'.map Task.id = ts.map Task.id := by
  induction ts generalizing ts' with
  | nil => simp [updateFirst] at h
  | cons t rest ih =>
    simp only [updateFirst] at h
    by_cases hid : t.id = task_id
    · rw [if_pos hid] at h
      rcases hf : updateTaskFields t ftitle ftags fdue with e | t''
      · simp only [hf] at h
        cases h
      · simp only [hf] at h
        injection h with h
        injection h with h
        subst h
        simp only [List.map_cons,
          updateTaskFields_id t ftitle ftags fdue t'' hf]
    · rw [if_neg hid] at h
      rcases hr : updateFirst task_id ftitle ftags fdue rest with e | o
      · simp only [hr] at h
        cases h
      · rcases o with _ | rest'
        · simp [hr] at h
        · simp only [hr] at h
          injection h with h
          injection h with h
          subst h
          simp only [List.map_cons, ih rest' hr]

theorem deleteFirst_sublist (task_id : Nat) (ts ts' : List Task)
    (h : deleteFirst task_id ts = some ts') : ts'.Sublist ts := by
  induction ts generalizing ts' with
  | nil => cases h
  | cons t rest ih =>
    simp only [deleteFirst] at h
    by_cases hid : t.id = task_id
    · rw [if_pos hid] at h
      injection h with h
      subst h
      exact List.sublist_cons_self t rest
    · rw [if_neg hid] at h
      rcases hrec : deleteFirst task_id rest with _ | rest'
      · simp [hrec] at h
      · simp only [hrec, Option.map_some'] at h
        injection h with h
        subst h
        exact List.Sublist.cons₂ t (ih rest' hrec)

/-- C9: id uniqueness is an invariant of the store: if the pre-call store has
pairwise-distinct ids, so does the post-call store of add_task (the new id
`max(existing ids) + 1` is strictly greater than every existing id),
complete_task, update_task (neither ever changes an id) and delete_task
(which only removes), whatever each call returns. -/
theorem unique_ids_invariant (ts : List Task) (task_id : Nat) (title : String)
    (tags : PyVal) (due : Option String) (now : String) (ftitle : Option String)
    (ftags : Option PyVal) (fdue : Option (Option String))
    (h : (ts.map Task.id).Nodup) :
    ((add_task ts title tags due now).2.map Task.id).Nodup ∧
    ((complete_task ts task_id).2.map Task.id).Nodup ∧
    ((update_task ts task_id ftitle ftags fdue).2.map Task.id).Nodup ∧
    ((delete_task ts task_id).2.map Task.id).Nodup := by
  refine ⟨?_, ?_, ?_, ?_⟩
  · by_cases hg : title = "" ∨ pyStrip title = ""
    · simpa [add_task, if_pos hg] using h
    · rcases hd : validate_date due with ed | vd
      · simpa [add_task, if_neg hg, hd] using h
      · rcases ht : validate_tags tags with et | vt
        · simpa [add_task, if_neg hg, hd, ht] using h
        · simp only [add_task, if_neg hg, hd, ht]
          rw [List.map_append, List.nodup_append]
          refine ⟨h, by simp, ?_⟩
          intro x hx hx2
          simp only [List.map_cons, List.map_nil, List.mem_singleton] at hx2
          subst hx2
          rw [List.mem_map] at hx
          obtain ⟨u, hu, hue⟩ := hx
          have hemp : ts.isEmpty = false := by
            cases ts with
            | nil => cases hu
            | cons a l => rfl
          rw [hemp] at hue
          simp only [Bool.false_eq_true, if_false] at hue
          have hle : u.id ≤ ts.foldl (fun m u => max m u.id) 0 :=
            foldl_max_le_mem ts 0 u hu
          unfold maxId at hue
          omega
  · rcases hc : completeFirst task_id ts with _ | ts'
    · simpa [complete_task, hc] using h
    · have he := completeFirst_map_id task_id ts ts' hc
      simp only [complete_task, hc]
      rw [he]
      exact h
  · rcases hu : updateFirst task_id ftitle ftags fdue ts with e | o
    · simpa [update_task, hu] using h
    · rcases o with _ | ts'
      · simpa [update_task, hu] using h
      · have he := updateFirst_map_id task_id ftitle ftags fdue ts ts' hu
        simp only [update_task, hu]
        rw [he]
        exact h
  · rcases hdl : deleteFirst task_id ts with _ | ts'
    · simpa [delete_task, hdl] using h
    · have hsub := (deleteFirst_sublist task_id ts ts' hdl).map Task.id
      simp only [delete_task, hdl]
      exact List.Nodup.sublist hsub h

/-- C9, witness: a store with distinct ids 1 and 2 keeps distinct ids after
each of the four operations, by the claim theorem at those inputs. -/
theorem unique_ids_invariant_witness :
    (((add_task [⟨1, "A", false, [], none, "T0"⟩, ⟨2, "B", false, [], none, "T0"⟩]
        "C" .vnone none "T1").2.map Task.id).Nodup) ∧
    (((complete_task [⟨1, "A", false, [], none, "T0"⟩, ⟨2, "B", false, [], none, "T0"⟩]
        1).2.map Task.id).Nodup) ∧
    (((update_task [⟨1, "A", false, [], none, "T0"⟩, ⟨2, "B", false, [], none, "T0"⟩]
        1 (some "C") none none).2.map Task.id).Nodup) ∧
    (((delete_task [⟨1, "A", false, [], none, "T0"⟩, ⟨2, "B", false, [], none, "T0"⟩]
        1).2.map Task.id).Nodup) :=
  unique_ids_invariant
    [⟨1, "A", false, [], none, "T0"⟩, ⟨2, "B", false, [], none, "T0"⟩]
    1 "C" .vnone none "T1" (some "C") none none (by decide)

/-! ## Claims C5, C6, C7 on list_tasks -/

theorem dueLe_trans (a b c : Task)
    (hab : decide (dueKey a ≤ dueKey b) = true)
    (hbc : decide (dueKey b ≤ dueKey c) = true) :
    decide (dueKey a ≤ dueKey c) = true := by
  rw [decide_eq_true_eq] at hab hbc ⊢
  exact le_trans hab hbc

theorem dueLe_total (a b : Task) :
    (decide (dueKey a ≤ dueKey b) || decide (dueKey b ≤ dueKey a)) = true := by
  rcases le_total (dueKey a) (dueKey b) with h | h <;> simp [h]

theorem dueKey_le_decode (a b : Task) (hab : dueKey a ≤ dueKey b) :
    (a.due = none → b.due = none) ∧
    (∀ da db, a.due = some da → b.due = some db → da ≤ db) ∧
    (a.due = b.due → a.id ≤ b.id) := by
  unfold dueKey at hab
  rw [Prod.Lex.le_iff] at hab
  refine ⟨?_, ?_, ?_⟩
  · intro ha
    rcases hab with h | ⟨h1, h2⟩
    · rw [ha] at h
      simp [Bool.lt_iff] at h
    · rw [ha] at h1
      simpa using (Option.isNone_iff_eq_none.mp h1.symm)
  · intro da dbv hda hdb
    rcases hab with h | ⟨h1, h2⟩
    · rw [hda, hdb] at h
      simp [Bool.lt_iff] at h
    · rw [Prod.Lex.le_iff] at h2
      rcases h2 with h | ⟨h3, h4⟩
      · simp only [hda, hdb, Option.getD_some] at h
        exact le_of_lt h
      · simp only [hda, hdb, Option.getD_some] at h3
        exact le_of_eq h3
  · intro he
    rcases hab with h | ⟨h1, h2⟩
    · rw [he] at h
      exact absurd h (lt_irrefl _)
    · rw [Prod.Lex.le_iff] at h2
      rcases h2 with h | ⟨h3, h4⟩
      · rw [he] at h
        exact absurd h (lt_irrefl _)
      · exact h4

/-- C7: `list_tasks` with `sort_by="due"` returns a permutation of the store
in which every task with a due date precedes every task without one, tasks
with due dates appear in ascending order of their date strings, and any two
tasks with equal primary key — the same due date, or both absent — appear in
ascending order of id. -/
theorem list_tasks_due_sort (ts : List Task) :
    ∃ res, list_tasks ts none none none "due" = .ok res ∧ List.Perm res ts ∧
      res.Pairwise (fun a b =>
        (a.due = none → b.due = none) ∧
        (∀ da db, a.due = some da → b.due = some db → da ≤ db) ∧
        (a.due = b.due → a.id ≤ b.id)) := by
  refine ⟨ts.mergeSort (fun a b => decide (dueKey a ≤ dueKey b)), rfl,
    List.mergeSort_perm ts _, ?_⟩
  have hs := List.sorted_mergeSort dueLe_trans dueLe_total ts
  exact hs.imp (fun hab => dueKey_le_decode _ _ (decide_eq_true_eq.mp hab))

/-- C7, witness: the claim theorem applied to the store of the spec's
end-to-end example — tasks A (id 1) and B (id 2) with the same due date
2025-09-05 — whose listing must therefore put A before B. -/
theorem list_tasks_due_sort_witness :
    ∃ res, list_tasks
        [⟨1, "A", false, [], some "2025-09-05", "T0"⟩,
         ⟨2, "B", false, [], some "2025-09-05", "T1"⟩] none none none "due" =
        .ok res ∧
      List.Perm res
        [⟨1, "A", false, [], some "2025-09-05", "T0"⟩,
         ⟨2, "B", false, [], some "2025-09-05", "T1"⟩] ∧
      res.Pairwise (fun a b =>
        (a.due = none → b.due = none) ∧
        (∀ da db, a.due = some da → b.due = some db → da ≤ db) ∧
        (a.due = b.due → a.id ≤ b.id)) :=
  list_tasks_due_sort
    [⟨1, "A", false, [], some "2025-09-05", "T0"⟩,
     ⟨2, "B", false, [], some "2025-09-05", "T1"⟩]

/-- C5: with a non-empty requested tag list (and the other filters off),
`list_tasks` keeps a task exactly when the task's tag list contains at least
one of the requested tags — an OR across the requested tags under exact,
case-sensitive string equality. -/
theorem list_tasks_tag_filter (ts : List Task) (q : List String) (hq : ¬ q = []) :
    ∃ res, list_tasks ts none (some q) none "due" = .ok res ∧
      ∀ t : Task, t ∈ res ↔ (t ∈ ts ∧ ∃ g ∈ q, g ∈ t.tags) := by
  have hemp : q.isEmpty = false := by
    cases q with
    | nil => exact absurd rfl hq
    | cons a l => rfl
  refine ⟨(ts.filter fun t => q.any fun g => decide (g ∈ t.tags)).mergeSort
    (fun a b => decide (dueKey a ≤ dueKey b)), ?_, ?_⟩
  · have step : list_tasks ts none (some q) none "due" =
        .ok ((if q.isEmpty = true then ts
              else ts.filter fun t => q.any fun g => decide (g ∈ t.tags)).mergeSort
          (fun a b => decide (dueKey a ≤ dueKey b))) := rfl
    rw [step, hemp]
    rfl
  · intro t
    have hp := List.mergeSort_perm
      (ts.filter fun t => q.any fun g => decide (g ∈ t.tags))
      (fun a b => decide (dueKey a ≤ dueKey b))
    rw [hp.mem_iff, List.mem_filter]
    simp only [List.any_eq_true, decide_eq_true_eq]

/-- C5, witness: the claim theorem applied to the spec's filter example —
task A has tags dev and qa, task B has tag backend, and the request is for
dev, which must keep exactly A. -/
theorem list_tasks_tag_filter_witness :
    ∃ res, list_tasks
        [⟨1, "A", false, ["dev", "qa"], none, "T0"⟩,
         ⟨2, "B", false, ["backend"], none, "T1"⟩] none (some ["dev"]) none
        "due" = .ok res ∧
      ∀ t : Task, t ∈ res ↔
        (t ∈ [⟨1, "A", false, ["dev", "qa"], none, "T0"⟩,
              ⟨2, "B", false, ["backend"], none, "T1"⟩] ∧
         ∃ g ∈ ["dev"], g ∈ t.tags) :=
  list_tasks_tag_filter
    [⟨1, "A", false, ["dev", "qa"], none, "T0"⟩,
     ⟨2, "B", false, ["backend"], none, "T1"⟩] ["dev"] (by decide)

/-- C6: with a valid `due_before` date string (and the other filters off), and
a store whose present due dates are non-empty strings (the data model
guarantees they are valid dates), `list_tasks` keeps a task exactly when the
task has a present due date that is lexicographically at most the given date;
in particular every task with an absent due date is excluded. -/
theorem list_tasks_due_before_filter (ts : List Task) (db : String)
    (hdb : strptimeYmdOk db = true) (hdue : ∀ t ∈ ts, ¬ t.due = some "") :
    ∃ res, list_tasks ts none none (some db) "due" = .ok res ∧
      ∀ t : Task, t ∈ res ↔ (t ∈ ts ∧ ∃ d, t.due = some d ∧ d ≤ db) := by
  have hne : ¬ db = "" := by
    intro h
    subst h
    exact absurd hdb (by decide)
  have hv : validate_date (some db) = .ok (some db) := by
    simp only [validate_date]
    rw [if_pos hdb]
  refine ⟨(ts.filter fun t => match t.due with
      | some d => decide (¬ d = "") && decide (d ≤ db)
      | none => false).mergeSort (fun a b => decide (dueKey a ≤ dueKey b)), ?_, ?_⟩
  · have step : list_tasks ts none none (some db) "due" =
        match (if db = "" then Except.ok none else validate_date (some db)) with
        | .error e => .error e
        | .ok validated =>
          .ok ((match validated with
            | some dbv => if dbv = "" then ts
                          else ts.filter fun t =>
                            match t.due with
                            | some d => decide (¬ d = "") && decide (d ≤ dbv)
                            | none => false
            | none => ts).mergeSort (fun a b => decide (dueKey a ≤ dueKey b))) := rfl
    rw [step, if_neg hne, hv]
    simp only [if_neg hne]
  · intro t
    have hp := List.mergeSort_perm (ts.filter fun t => match t.due with
      | some d => decide (¬ d = "") && decide (d ≤ db)
      | none => false) (fun a b => decide (dueKey a ≤ dueKey b))
    rw [hp.mem_iff, List.mem_filter]
    constructor
    · rintro ⟨hmem, hcond⟩
      refine ⟨hmem, ?_⟩
      rcases ht : t.due with _ | d
      · rw [ht] at hcond
        simp at hcond
      · rw [ht] at hcond
        simp only [Bool.and_eq_true, decide_eq_true_eq] at hcond
        exact ⟨d, rfl, hcond.2⟩
    · rintro ⟨hmem, d, hd, hle⟩
      refine ⟨hmem, ?_⟩
      rw [hd]
      have hdne : ¬ d = "" := by
        intro h
        rw [h] at hd
        exact hdue t hmem hd
      simp [hdne, hle]

/-- C6, witness: the claim theorem applied to the spec's example — a task with
no due date is excluded from `due_before="2099-01-01"` even though absence
might be construed as infinitely early, while a dated task on 2025-09-05 is
kept. -/
theorem list_tasks_due_before_filter_witness :
    ∃ res, list_tasks
        [⟨1, "A", false, [], none, "T0"⟩,
         ⟨2, "B", false, [], some "2025-09-05", "T1"⟩] none none
        (some "2099-01-01") "due" = .ok res ∧
      ∀ t : Task, t ∈ res ↔
        (t ∈ [⟨1, "A", false, [], none, "T0"⟩,
              ⟨2, "B", false, [], some "2025-09-05", "T1"⟩] ∧
         ∃ d, t.due = some d ∧ d ≤ "2099-01-01") :=
  list_tasks_due_before_filter
    [⟨1, "A", false, [], none, "T0"⟩,
     ⟨2, "B", false, [], some "2025-09-05", "T1"⟩] "2099-01-01"
    (by decide) (by decide)

end TodoCore
